import Mathlib

/- Shallow embedding of src/common/dns_utils.cpp: DNS record payload decoding,
   DNSSEC-aware record retrieval, the OpenAlias TXT micro-format parser, and
   the multi-source quorum logic of load_txt_records_from_dns.

   Strings are modelled as List Char, raw DNS payload bytes as List Nat,
   and the external libunbound engine as an oracle value describing what
   ub_resolve would report for the one query a call makes. -/

namespace DnsUtils

/-- First index i in the half-open range from start (length len) whose
    predicate p holds; models a C scan loop returning the first hit. -/
def findFirstFrom (p : Nat → Bool) (start len : Nat) : Option Nat :=
  (List.range' start len).find? p

/-- Embedding of ipv4_to_string: fewer than 4 payload bytes fails, otherwise
    the first four bytes (as unsigned chars, hence % 256) are rendered in
    dotted-decimal form. -/
def ipv4_to_string (src : List Nat) : Option (List Char) :=
  if src.length < 4 then none
  else some (Nat.toDigits 10 (src.getD 0 0 % 256) ++ '.' ::
             (Nat.toDigits 10 (src.getD 1 0 % 256) ++ '.' ::
              (Nat.toDigits 10 (src.getD 2 0 % 256) ++ '.' ::
               Nat.toDigits 10 (src.getD 3 0 % 256))))

/-- Embedding of ipv6_to_string: fewer than 8 payload bytes fails, otherwise
    the first eight bytes are rendered as 8 colon-separated decimal groups. -/
def ipv6_to_string (src : List Nat) : Option (List Char) :=
  if src.length < 8 then none
  else some (Nat.toDigits 10 (src.getD 0 0 % 256) ++ ':' ::
             (Nat.toDigits 10 (src.getD 1 0 % 256) ++ ':' ::
              (Nat.toDigits 10 (src.getD 2 0 % 256) ++ ':' ::
               (Nat.toDigits 10 (src.getD 3 0 % 256) ++ ':' ::
                (Nat.toDigits 10 (src.getD 4 0 % 256) ++ ':' ::
                 (Nat.toDigits 10 (src.getD 5 0 % 256) ++ ':' ::
                  (Nat.toDigits 10 (src.getD 6 0 % 256) ++ ':' ::
                   Nat.toDigits 10 (src.getD 7 0 % 256))))))))

/-- Embedding of txt_to_string: empty payload fails, otherwise the single
    leading length byte is stripped. -/
def txt_to_string (src : List Char) : Option (List Char) :=
  if src.length = 0 then none
  else some (src.drop 1)

/-- Embedding of DNSResolver::check_address_syntax: a name qualifies only if
    it contains a separator dot (strchr for '.'). -/
def check_address_syntax (addr : List Char) : Bool :=
  addr.any (fun c => c = '.')

/-- Oracle describing what ub_resolve would report for one query: whether the
    call succeeded (returned 0), the secure / bogus / havedata flags, and the
    raw payloads in result->data. -/
structure UbResult (β : Type) where
  ret_ok : Bool
  secure : Bool
  bogus : Bool
  havedata : Bool
  data : List β
deriving DecidableEq

/-- Result of DNSResolver::get_record: the decoded records, the two DNSSEC
    trust flags, and (instrumentation of the embedding) whether ub_resolve
    was actually invoked. -/
structure RecordQueryOutcome (γ : Type) where
  records : List γ
  dnssec_available : Bool
  dnssec_valid : Bool
  queried : Bool
deriving DecidableEq

/-- Embedding of DNSResolver::get_record: both flags start false; a name with
    no dot returns immediately with no query; otherwise ub_resolve runs and,
    on success, the flags are derived from secure/bogus and each payload is
    decoded by reader, dropping undecodable ones. -/
def get_record {β γ : Type} (engine : UbResult β) (url : List Char)
    (reader : β → Option γ) : RecordQueryOutcome γ :=
  if check_address_syntax url = false then ⟨[], false, false, false⟩
  else if engine.ret_ok then
    ⟨if engine.havedata then engine.data.filterMap reader else [],
     engine.secure || engine.bogus,
     engine.secure && !engine.bogus,
     true⟩
  else ⟨[], false, false, true⟩

/-- Embedding of DNSResolver::get_ipv4. -/
def get_ipv4 (engine : UbResult (List Nat)) (url : List Char) :
    RecordQueryOutcome (List Char) :=
  get_record engine url ipv4_to_string

/-- Embedding of DNSResolver::get_ipv6. -/
def get_ipv6 (engine : UbResult (List Nat)) (url : List Char) :
    RecordQueryOutcome (List Char) :=
  get_record engine url ipv6_to_string

/-- Embedding of DNSResolver::get_txt_record. -/
def get_txt_record (engine : UbResult (List Char)) (url : List Char) :
    RecordQueryOutcome (List Char) :=
  get_record engine url txt_to_string

/-- Bool test that pat occurs in s starting at index i and fits entirely
    inside s, modelling a successful std::string::find match position. -/
def occursAt (s pat : List Char) (i : Nat) : Bool :=
  decide ((s.drop i).take pat.length = pat)

/-- Embedding of std::string::find(pat, start): the first position at or
    after start where pat occurs, none when there is no such position. -/
def strFind (s pat : List Char) (start : Nat) : Option Nat :=
  findFirstFrom (fun i => occursAt s pat i) start (s.length - start)

/-- Literal marker the TXT micro-format parser searches for first. -/
def txt_marker : List Char := "oa1:xmr".toList

/-- Literal key the TXT micro-format parser searches for after the marker. -/
def recipient_key : List Char := "recipient_address=".toList

/-- Embedding of dns_utils::address_from_txt_record: find the marker, then
    the key at or after it, step 18 chars past the key, find the next
    semicolon, and accept only a 95- or 106-character substring. -/
def address_from_txt_record (s : List Char) : List Char :=
  match strFind s txt_marker 0 with
  | none => []
  | some pos0 =>
    match strFind s recipient_key pos0 with
    | none => []
    | some posk =>
      let pos := posk + 18
      match strFind s [';'] pos with
      | none => []
      | some pos2 =>
        if pos2 - pos = 95 then (s.drop pos).take 95
        else if pos2 - pos = 106 then (s.drop pos).take 106
        else []

/-- Embedding of DNSResolver::get_dns_format_from_oa_address: replace the
    first at-sign with a dot, leaving everything else unchanged. -/
def get_dns_format_from_oa_address : List Char → List Char
  | [] => []
  | c :: rest =>
    if c = '@' then '.' :: rest else c :: get_dns_format_from_oa_address rest

/-- Embedding of dns_utils::addresses_from_url: resolve TXT records for the
    transformed name, report dnssec_valid as available AND valid, and keep
    every nonempty address extracted from a record, in order. -/
def addresses_from_url (engine : UbResult (List Char)) (url : List Char) :
    List (List Char) × Bool :=
  let r := get_txt_record engine (get_dns_format_from_oa_address url)
  (r.records.filterMap (fun rec =>
      let addr := address_from_txt_record rec
      if addr.isEmpty then none else some addr),
   r.dnssec_available && r.dnssec_valid)

/-- Embedding of dns_utils::get_account_address_as_str_from_url. The second
    component instruments the embedding with the list of dns_confirm
    invocations (arguments in order), so that "callback not invoked" and
    "invoked exactly once" are statable. -/
def get_account_address_as_str_from_url (engine : UbResult (List Char))
    (url : List Char)
    (dns_confirm : List Char → List (List Char) → Bool → List Char) :
    List Char × List (List Char × List (List Char) × Bool) :=
  let r := addresses_from_url engine url
  if r.1.isEmpty then ([], [])
  else (dns_confirm url r.1 r.2, [(url, r.1, r.2)])

/-- Embedding of the anonymous helper dns_records_match: equal sizes, and a
    scan of b for each record of a (inner loop with early break). -/
def dns_records_match {α : Type} [DecidableEq α] (a b : List α) : Bool :=
  decide (a.length = b.length) &&
  a.all (fun record_in_a => b.any (fun record_in_b =>
    decide (record_in_a = record_in_b)))

/-- One iteration of the clearing do-while loop of load_txt_records_from_dns:
    at index i, clear the record set if DNSSEC was unavailable, then clear it
    if DNSSEC validation failed. -/
def clearStep {α : Type} (avail valid : List Bool) (recs : List (List α))
    (i : Nat) : List (List α) :=
  let r1 := if avail.getD i false = false then recs.set i [] else recs
  if valid.getD i false = false then r1.set i [] else r1

/-- The clearing do-while loop of load_txt_records_from_dns: starting at the
    randomized first index, walk every index once (wrapping at the end),
    clearing untrusted record sets. -/
def clearLoop {α : Type} (avail valid : List Bool) (recs : List (List α))
    (first : Nat) : List (List α) :=
  ((List.range recs.length).map
    (fun k => (first + k) % recs.length)).foldl (clearStep avail valid) recs

/-- Record sets of a source list after the clearing phase of
    load_txt_records_from_dns, given the randomized starting index. A source
    is a triple (records, dnssec_available, dnssec_valid). -/
def clearedRecords {α : Type} (srcs : List (List α × Bool × Bool))
    (first : Nat) : List (List α) :=
  clearLoop (srcs.map (fun s => s.2.1)) (srcs.map (fun s => s.2.2))
    (srcs.map (fun s => s.1)) first

/-- Count of sources with a nonempty record set, as in the counting loop of
    load_txt_records_from_dns. -/
def num_valid_records {α : Type} (recs : List (List α)) : Nat :=
  recs.countP (fun record_set => decide (record_set.length ≠ 0))

/-- The pair-search loops of load_txt_records_from_dns: scan i upward below
    size - 1, skipping empty record sets, and for each i scan j from i + 1
    upward, stopping at the first j whose record set matches; the result is
    the first such i. -/
def findGoodIndex {α : Type} [DecidableEq α] (recs : List (List α)) :
    Option Nat :=
  findFirstFrom
    (fun i =>
      !(recs.getD i []).isEmpty &&
      (findFirstFrom
        (fun j => dns_records_match (recs.getD i []) (recs.getD j []))
        (i + 1) (recs.length - (i + 1))).isSome)
    0 (recs.length - 1)

/-- Embedding of dns_utils::load_txt_records_from_dns over the per-source
    results (records and the two DNSSEC flags, one triple per configured
    hostname, as filled in by the parallel fan-out) and the randomized
    starting index of the clearing loop. Returns some good_records when the
    function returns true, none when it returns false. -/
def load_txt_records_from_dns {α : Type} [DecidableEq α]
    (srcs : List (List α × Bool × Bool)) (first : Nat) : Option (List α) :=
  if srcs.isEmpty then none
  else
    let records := clearedRecords srcs first
    if num_valid_records records = 0 then none
    else if srcs.length = 1 then some (records.getD 0 [])
    else
      match findGoodIndex records with
      | some i => some (records.getD i [])
      | none => none

/- Definitions below follow the wording of the specification, for comparison
   with the corresponding definitions taken from the source. -/

/-- Modelled from the spec: record sets counted as matching for quorum —
    same cardinality, and every record in one appears in the other
    (order-independent). -/
def records_match_spec {α : Type} [DecidableEq α] (a b : List α) : Bool :=
  decide (a.length = b.length) && a.all (fun record => decide (record ∈ b))

/-- Modelled from the spec: the first pair (i, j), i < j, both with nonempty
    record sets, whose record sets match — i scanned upward, and for each i,
    j scanned upward from i + 1, stopping at the first matching pair. The
    result is the i of that pair. -/
def specGoodIndex {α : Type} [DecidableEq α] (recs : List (List α)) :
    Option Nat :=
  findFirstFrom
    (fun i =>
      !(recs.getD i []).isEmpty &&
      (findFirstFrom
        (fun j =>
          !(recs.getD j []).isEmpty &&
          records_match_spec (recs.getD i []) (recs.getD j []))
        (i + 1) (recs.length - (i + 1))).isSome)
    0 recs.length

/-- Proposition that i is the first position at or after start where pat
    occurs (fully contained) in s. -/
def firstOccurrenceFrom (s pat : List Char) (start i : Nat) : Prop :=
  start ≤ i ∧ occursAt s pat i = true ∧
    ∀ j < i, start ≤ j → occursAt s pat j = false

/-- Proposition that positions m, k, t describe a successful parse of the TXT
    micro-format in s: m the first marker occurrence, k the first key
    occurrence at or after m, t the first semicolon at or after the address
    start k + 18, with the address length exactly 95 or 106. -/
def goodParse (s : List Char) (m k t : Nat) : Prop :=
  firstOccurrenceFrom s txt_marker 0 m ∧
  firstOccurrenceFrom s recipient_key m k ∧
  firstOccurrenceFrom s [';'] (k + 18) t ∧
  (t - (k + 18) = 95 ∨ t - (k + 18) = 106)

instance (s pat : List Char) (start i : Nat) :
    Decidable (firstOccurrenceFrom s pat start i) := by
  unfold firstOccurrenceFrom; infer_instance

instance (s : List Char) (m k t : Nat) : Decidable (goodParse s m k t) := by
  unfold goodParse; infer_instance

/-- Characterization of findFirstFrom returning a hit: the hit is in range,
    satisfies the predicate, and no earlier in-range index does. -/
theorem findFirstFrom_eq_some {p : Nat → Bool} :
    ∀ {l s m : Nat}, findFirstFrom p s l = some m ↔
      (s ≤ m ∧ m < s + l ∧ p m = true ∧
        ∀ j, s ≤ j → j < m → p j = false) := by
  intro l
  induction l with
  | zero =>
    intro s m
    simp only [findFirstFrom, List.range', List.find?_nil]
    constructor
    · intro h; cases h
    · rintro ⟨h1, h2, _⟩; omega
  | succ l ih =>
    intro s m
    rw [findFirstFrom, List.range'_succ]
    by_cases hp : p s = true
    · rw [List.find?_cons_of_pos _ hp]
      constructor
      · intro h
        have hm : s = m := by simpa using h
        subst hm
        exact ⟨Nat.le_refl _, by omega, hp, fun j h1 h2 => absurd h1 (by omega)⟩
      · rintro ⟨h1, _, _, h4⟩
        rcases Nat.eq_or_lt_of_le h1 with h | hlt
        · simp [h]
        · have := h4 s (Nat.le_refl _) hlt
          rw [this] at hp
          cases hp
    · have hps : p s = false := by simpa using hp
      rw [List.find?_cons_of_neg _ hp]
      have hgoal : (List.range' (s + 1) l).find? p = findFirstFrom p (s + 1) l := rfl
      rw [hgoal, ih]
      constructor
      · rintro ⟨h1, h2, h3, h4⟩
        refine ⟨by omega, by omega, h3, fun j hj1 hj2 => ?_⟩
        rcases Nat.eq_or_lt_of_le hj1 with h | h
        · rw [← h]; exact hps
        · exact h4 j h hj2
      · rintro ⟨h1, h2, h3, h4⟩
        have hm : m ≠ s := by
          intro e; rw [e, hps] at h3; cases h3
        exact ⟨by omega, by omega, h3, fun j hj1 hj2 => h4 j (by omega) hj2⟩

/-- Characterization of findFirstFrom returning no hit: the predicate fails
    on the whole range. -/
theorem findFirstFrom_eq_none {p : Nat → Bool} {s l : Nat} :
    findFirstFrom p s l = none ↔
      ∀ j, s ≤ j → j < s + l → p j = false := by
  rw [findFirstFrom, List.find?_eq_none]
  constructor
  · intro h j hj1 hj2
    have := h j (List.mem_range'_1.mpr ⟨hj1, hj2⟩)
    simpa using this
  · intro h x hx
    have := List.mem_range'_1.mp hx
    simp [h x this.1 this.2]

/-- findFirstFrom finds a hit exactly when some index of the range satisfies
    the predicate. -/
theorem findFirstFrom_isSome {p : Nat → Bool} {s l : Nat} :
    (findFirstFrom p s l).isSome = true ↔
      ∃ j, s ≤ j ∧ j < s + l ∧ p j = true := by
  rw [findFirstFrom, List.find?_isSome]
  constructor
  · rintro ⟨x, hx, hp⟩
    have := List.mem_range'_1.mp hx
    exact ⟨x, this.1, this.2, hp⟩
  · rintro ⟨j, h1, h2, h3⟩
    exact ⟨j, List.mem_range'_1.mpr ⟨h1, h2⟩, h3⟩

/-- Dropping the last index of the scanned range does not change the result
    when the predicate fails there. -/
theorem findFirstFrom_snoc {p : Nat → Bool} {s l : Nat}
    (h : p (s + l) = false) :
    findFirstFrom p s (l + 1) = findFirstFrom p s l := by
  rw [findFirstFrom, findFirstFrom, List.range'_1_concat, List.find?_append]
  have : List.find? p [s + l] = none := by simp [List.find?, h]
  rw [this]
  cases (List.range' s l).find? p <;> rfl

/-- C7: a query name containing no dot makes get_record (and therefore
    get_ipv4, get_ipv6 and get_txt_record) return an empty record list with
    dnssec_available = false and dnssec_valid = false, and no resolver query
    is issued, whatever the engine would have answered. -/
theorem C7_no_dot_fails_closed {β γ : Type} (url : List Char)
    (h : '.' ∉ url) (engine : UbResult β) (reader : β → Option γ)
    (e4 e6 : UbResult (List Nat)) (et : UbResult (List Char)) :
    get_record engine url reader = ⟨[], false, false, false⟩ ∧
    get_ipv4 e4 url = ⟨[], false, false, false⟩ ∧
    get_ipv6 e6 url = ⟨[], false, false, false⟩ ∧
    get_txt_record et url = ⟨[], false, false, false⟩ := by
  have hc : check_address_syntax url = false := by
    cases hca : url.any (fun c => c = '.') with
    | false => exact hca
    | true =>
      rw [List.any_eq_true] at hca
      obtain ⟨x, hx, he⟩ := hca
      have hxd : x = '.' := by simpa using he
      exact absurd (hxd ▸ hx) h
  refine ⟨?_, ?_, ?_, ?_⟩ <;>
    simp [get_record, get_ipv4, get_ipv6, get_txt_record, hc]

/-- C7 witness: a dotless name gives the fail-closed result for a concrete
    engine on every entry point. -/
theorem C7_no_dot_fails_closed_witness :
    get_record (⟨true, true, false, true, [[104, 105]]⟩ : UbResult (List Nat))
      ['a', 'b'] ipv4_to_string = ⟨[], false, false, false⟩ ∧
    get_ipv4 ⟨true, true, false, true, [[1, 2, 3, 4]]⟩ ['a', 'b'] =
      ⟨[], false, false, false⟩ ∧
    get_ipv6 ⟨true, true, false, true, []⟩ ['a', 'b'] =
      ⟨[], false, false, false⟩ ∧
    get_txt_record ⟨true, true, false, true, []⟩ ['a', 'b'] =
      ⟨[], false, false, false⟩ :=
  C7_no_dot_fails_closed ['a', 'b'] (by decide) _ _ _ _ _

/-- C8: each record decoder fails on payloads below its minimum length
    (4 bytes for A, 8 for AAAA, 1 for TXT) and, at or above the minimum,
    renders exactly the prescribed prefix of the payload: the first 4 bytes
    dotted-decimal, the first 8 bytes as 8 colon-separated decimal groups,
    and the TXT text with the single leading length byte stripped. -/
theorem C8_decoder_minimum_lengths (b4 b6 : List Nat) (t : List Char) :
    (b4.length < 4 → ipv4_to_string b4 = none) ∧
    (4 ≤ b4.length →
      ipv4_to_string b4 =
        some (List.intercalate ['.']
          ((b4.take 4).map (fun byte => Nat.toDigits 10 (byte % 256))))) ∧
    (b6.length < 8 → ipv6_to_string b6 = none) ∧
    (8 ≤ b6.length →
      ipv6_to_string b6 =
        some (List.intercalate [':']
          ((b6.take 8).map (fun byte => Nat.toDigits 10 (byte % 256))))) ∧
    (t.length < 1 → txt_to_string t = none) ∧
    (1 ≤ t.length → txt_to_string t = some (t.drop 1)) := by
  refine ⟨?_, ?_, ?_, ?_, ?_, ?_⟩
  · intro h; rw [ipv4_to_string, if_pos h]
  · intro h
    rcases b4 with _ | ⟨a, _ | ⟨b, _ | ⟨c, _ | ⟨d, rest⟩⟩⟩⟩ <;>
      simp only [List.length_nil, List.length_cons] at h <;> try omega
    rw [ipv4_to_string, if_neg (by simp only [List.length_cons]; omega)]
    simp [List.intercalate, List.intersperse, List.flatten]
  · intro h; rw [ipv6_to_string, if_pos h]
  · intro h
    rcases b6 with _ | ⟨a, _ | ⟨b, _ | ⟨c, _ | ⟨d, _ | ⟨e, _ | ⟨f, _ |
      ⟨g, _ | ⟨i, rest⟩⟩⟩⟩⟩⟩⟩⟩ <;>
      simp only [List.length_nil, List.length_cons] at h <;> try omega
    rw [ipv6_to_string, if_neg (by simp only [List.length_cons]; omega)]
    simp [List.intercalate, List.intersperse, List.flatten]
  · intro h; rw [txt_to_string, if_pos (by omega)]
  · intro h; rw [txt_to_string, if_neg (by omega)]

/-- C8 witness: the decoders at concrete short and long payloads. -/
theorem C8_decoder_minimum_lengths_witness :
    ipv4_to_string [1, 2, 3] = none ∧
    ipv4_to_string [192, 168, 0, 1] =
      some (List.intercalate ['.']
        (([192, 168, 0, 1].take 4).map
          (fun byte => Nat.toDigits 10 (byte % 256)))) ∧
    ipv6_to_string [9, 9, 9] = none ∧
    txt_to_string [] = none ∧
    txt_to_string ['X', 'h', 'i'] = some (['X', 'h', 'i'].drop 1) :=
  ⟨(C8_decoder_minimum_lengths [1, 2, 3] [9, 9, 9] []).1 (by decide),
   (C8_decoder_minimum_lengths [192, 168, 0, 1] [9, 9, 9] []).2.1 (by decide),
   (C8_decoder_minimum_lengths [1, 2, 3] [9, 9, 9] []).2.2.1 (by decide),
   (C8_decoder_minimum_lengths [1, 2, 3] [9, 9, 9] []).2.2.2.2.1 (by decide),
   (C8_decoder_minimum_lengths [1, 2, 3] [9, 9, 9]
     ['X', 'h', 'i']).2.2.2.2.2 (by decide)⟩

/-- A full occurrence of a nonempty pattern ends within the string. -/
theorem occursAt_length_le {s pat : List Char} {i : Nat} (hpat : pat ≠ [])
    (h : occursAt s pat i = true) : i + pat.length ≤ s.length := by
  rw [occursAt, decide_eq_true_eq] at h
  have hlen := congrArg List.length h
  rw [List.length_take, List.length_drop] at hlen
  have hpos : 0 < pat.length := List.length_pos.mpr hpat
  omega

/-- strFind returns some i exactly when i is the first position at or after
    start where the pattern occurs. -/
theorem strFind_eq_some {s pat : List Char} {start i : Nat}
    (hpat : pat ≠ []) :
    strFind s pat start = some i ↔ firstOccurrenceFrom s pat start i := by
  rw [strFind, findFirstFrom_eq_some, firstOccurrenceFrom]
  constructor
  · rintro ⟨h1, _, h3, h4⟩
    exact ⟨h1, h3, fun j hj1 hj2 => h4 j hj2 hj1⟩
  · rintro ⟨h1, h2, h3⟩
    have hb := occursAt_length_le hpat h2
    have hpos : 0 < pat.length := List.length_pos.mpr hpat
    exact ⟨h1, by omega, h2, fun j hj1 hj2 => h3 j hj2 hj1⟩

/-- strFind returns none exactly when the pattern occurs nowhere at or after
    start. -/
theorem strFind_eq_none {s pat : List Char} {start : Nat} (hpat : pat ≠ []) :
    strFind s pat start = none ↔
      ∀ j, start ≤ j → occursAt s pat j = false := by
  rw [strFind, findFirstFrom_eq_none]
  constructor
  · intro h j hj
    by_cases hjl : j < start + (s.length - start)
    · exact h j hj hjl
    · cases hocc : occursAt s pat j with
      | false => rfl
      | true =>
        exfalso
        have h1 := occursAt_length_le hpat hocc
        have h2 : 0 < pat.length := List.length_pos.mpr hpat
        omega
  · intro h j hj _
    exact h j hj

/-- C3: address_from_txt_record s is nonempty exactly when s contains the
    marker oa1:xmr (first occurrence m), then the key recipient_address= at
    or after the marker (first occurrence k), then a terminating semicolon
    (first occurrence t at or after the address start k + 18) with the
    enclosed substring of length exactly 95 or exactly 106; in that case the
    result is that substring, and in every other case the result is empty. -/
theorem C3_address_from_txt_record_characterization (s : List Char) :
    (address_from_txt_record s ≠ [] ↔ ∃ m k t, goodParse s m k t) ∧
    (∀ m k t, goodParse s m k t →
      address_from_txt_record s = (s.drop (k + 18)).take (t - (k + 18))) := by
  have hm : txt_marker ≠ [] := by decide
  have hk : recipient_key ≠ [] := by decide
  have hsemi : ([';'] : List Char) ≠ [] := by decide
  have value_eq : ∀ m k t, goodParse s m k t →
      address_from_txt_record s = (s.drop (k + 18)).take (t - (k + 18)) := by
    rintro m k t ⟨h1, h2, h3, h4⟩
    have e1 := (strFind_eq_some hm).mpr h1
    have e2 := (strFind_eq_some hk).mpr h2
    have e3 := (strFind_eq_some hsemi).mpr h3
    rw [address_from_txt_record]
    simp only [e1, e2, e3]
    rcases h4 with h4 | h4
    · rw [if_pos h4, h4]
    · rw [if_neg (by omega), if_pos h4, h4]
  refine ⟨⟨?_, ?_⟩, value_eq⟩
  · intro hne
    cases e1 : strFind s txt_marker 0 with
    | none => rw [address_from_txt_record, e1] at hne; exact absurd rfl hne
    | some m =>
      cases e2 : strFind s recipient_key m with
      | none =>
        rw [address_from_txt_record, e1] at hne
        simp only [e2] at hne
        exact absurd rfl hne
      | some k =>
        cases e3 : strFind s [';'] (k + 18) with
        | none =>
          rw [address_from_txt_record, e1] at hne
          simp only [e2, e3] at hne
          exact absurd rfl hne
        | some t =>
          refine ⟨m, k, t, (strFind_eq_some hm).mp e1,
            (strFind_eq_some hk).mp e2, (strFind_eq_some hsemi).mp e3, ?_⟩
          by_contra hlen
          push_neg at hlen
          rw [address_from_txt_record, e1] at hne
          simp only [e2, e3] at hne
          rw [if_neg hlen.1, if_neg hlen.2] at hne
          exact absurd rfl hne
  · rintro ⟨m, k, t, hgp⟩
    rw [value_eq m k t hgp]
    rcases hgp with ⟨h1, h2, h3, h4⟩
    have hb := occursAt_length_le hsemi h3.2.1
    have hkt : k + 18 ≤ t := h3.1
    intro hnil
    have hlen := congrArg List.length hnil
    rw [List.length_take, List.length_drop, List.length_nil] at hlen
    simp only [List.length_cons, List.length_nil] at hb
    omega

/-- C3 witness: a well-formed record with a 95-character address parses to
    exactly that address substring. -/
theorem C3_address_from_txt_record_witness :
    address_from_txt_record
        ("oa1:xmr recipient_address=".toList ++
          List.replicate 95 'A' ++ [';']) =
      (("oa1:xmr recipient_address=".toList ++
          List.replicate 95 'A' ++ [';']).drop (8 + 18)).take
        (121 - (8 + 18)) :=
  (C3_address_from_txt_record_characterization
    ("oa1:xmr recipient_address=".toList ++
      List.replicate 95 'A' ++ [';'])).2 0 8 121 (by decide)

/-- clearStep preserves the length of the record array. -/
theorem clearStep_length {α : Type} (a v : List Bool) (recs : List (List α))
    (i : Nat) : (clearStep a v recs i).length = recs.length := by
  simp only [clearStep, List.getD_eq_getElem?_getD]
  by_cases h1 : a[i]?.getD false = false <;>
    by_cases h2 : v[i]?.getD false = false <;> simp [h1, h2]

/-- clearStep leaves every other index unchanged. -/
theorem clearStep_getD_ne {α : Type} (a v : List Bool) (recs : List (List α))
    {i m : Nat} (h : m ≠ i) :
    (clearStep a v recs i).getD m [] = recs.getD m [] := by
  have hne : i ≠ m := Ne.symm h
  simp only [clearStep, List.getD_eq_getElem?_getD]
  by_cases h1 : a[i]?.getD false = false <;>
    by_cases h2 : v[i]?.getD false = false <;>
      simp [h1, h2, List.getElem?_set_ne hne]

/-- clearStep at an in-range index keeps the record set only when both
    DNSSEC flags are true, and clears it otherwise. -/
theorem clearStep_getD_self {α : Type} (a v : List Bool) (recs : List (List α))
    (i : Nat) (hlt : i < recs.length) :
    (clearStep a v recs i).getD i [] =
      if a.getD i false = true ∧ v.getD i false = true then recs.getD i []
      else [] := by
  simp only [clearStep, List.getD_eq_getElem?_getD]
  by_cases h1 : a[i]?.getD false = false <;>
    by_cases h2 : v[i]?.getD false = false <;>
      simp [h1, h2, List.getElem?_set, hlt, List.length_set]

/-- Folding clearStep over a list of in-range indices clears exactly the
    visited indices whose flags are not both true. -/
theorem foldl_clearStep_getD {α : Type} (a v : List Bool) :
    ∀ (ixs : List Nat) (recs : List (List α)) (m : Nat),
      (∀ i ∈ ixs, i < recs.length) →
      (ixs.foldl (clearStep a v) recs).getD m [] =
        if m ∈ ixs ∧ ¬(a.getD m false = true ∧ v.getD m false = true) then []
        else recs.getD m [] := by
  intro ixs
  induction ixs with
  | nil => intro recs m _; simp
  | cons i rest ih =>
    intro recs m hbound
    rw [List.foldl_cons, ih _ _ (fun j hj => by
      rw [clearStep_length]; exact hbound j (List.mem_cons_of_mem _ hj))]
    by_cases hm : m = i
    · subst hm
      have hcs := clearStep_getD_self a v recs m
        (hbound m (List.mem_cons_self _ _))
      simp only [List.getD_eq_getElem?_getD] at hcs ⊢
      by_cases hflag : a[m]?.getD false = true ∧ v[m]?.getD false = true
      · rw [if_pos hflag] at hcs
        simp [hflag, hcs]
      · rw [if_neg hflag] at hcs
        simp [hflag, hcs]
    · rw [clearStep_getD_ne _ _ _ hm]
      by_cases hmr : m ∈ rest <;>
        by_cases hflag : a.getD m false = true ∧ v.getD m false = true <;>
          simp [hm, hmr, hflag, List.mem_cons]

/-- Every index below n is produced by the wrapped traversal order that
    starts at first. -/
theorem mem_rotated {n first m : Nat} (hf : first < n) (hm : m < n) :
    m ∈ (List.range n).map (fun k => (first + k) % n) := by
  rw [List.mem_map]
  by_cases hcase : first ≤ m
  · refine ⟨m - first, List.mem_range.mpr (by omega), ?_⟩
    have he : first + (m - first) = m := by omega
    rw [he, Nat.mod_eq_of_lt hm]
  · refine ⟨m + n - first, List.mem_range.mpr (by omega), ?_⟩
    have he : first + (m + n - first) = m + n := by omega
    rw [he, Nat.add_mod_right, Nat.mod_eq_of_lt hm]

/-- Folding clearStep preserves length. -/
theorem foldl_clearStep_length {α : Type} (a v : List Bool) :
    ∀ (ixs : List Nat) (recs : List (List α)),
      (ixs.foldl (clearStep a v) recs).length = recs.length := by
  intro ixs
  induction ixs with
  | nil => intro recs; rfl
  | cons i rest ih => intro recs; rw [List.foldl_cons, ih, clearStep_length]

/-- The clearing loop preserves the length of the record array. -/
theorem clearLoop_length {α : Type} (a v : List Bool) (recs : List (List α))
    (first : Nat) : (clearLoop a v recs first).length = recs.length := by
  rw [clearLoop, foldl_clearStep_length]

/-- Pointwise description of the clearing loop: independent of the starting
    index, an entry survives exactly when both its flags are true. -/
theorem clearLoop_getD {α : Type} (a v : List Bool) (recs : List (List α))
    (first m : Nat) (hf : first < recs.length) :
    (clearLoop a v recs first).getD m [] =
      if m < recs.length ∧ ¬(a.getD m false = true ∧ v.getD m false = true)
      then [] else recs.getD m [] := by
  have hn : 0 < recs.length := by omega
  rw [clearLoop, foldl_clearStep_getD]
  · refine if_congr (and_congr_left' ?_) rfl rfl
    constructor
    · intro hmem
      obtain ⟨k, _, hk⟩ := List.mem_map.mp hmem
      rw [← hk]
      exact Nat.mod_lt _ hn
    · intro hm
      exact mem_rotated hf hm
  · intro i hi
    obtain ⟨k, _, hk⟩ := List.mem_map.mp hi
    rw [← hk]
    exact Nat.mod_lt _ hn

/-- getD commutes with map when the index is in range and the default is the
    image of a default. -/
theorem getD_map_of_lt {β γ : Type} (f : β → γ) (l : List β) (m : Nat)
    (d : β) (hm : m < l.length) :
    (l.map f).getD m (f d) = f (l.getD m d) := by
  rw [List.getD_eq_getElem?_getD, List.getD_eq_getElem?_getD,
    List.getElem?_map, List.getElem?_eq_getElem hm]
  rfl

/-- The cleared record array has one entry per configured source. -/
theorem clearedRecords_length {α : Type} (srcs : List (List α × Bool × Bool))
    (first : Nat) : (clearedRecords srcs first).length = srcs.length := by
  rw [clearedRecords, clearLoop_length, List.length_map]

/-- Pointwise description of clearedRecords: a source keeps its records
    exactly when dnssec_available and dnssec_valid are both true. -/
theorem clearedRecords_getD {α : Type} (srcs : List (List α × Bool × Bool))
    (first m : Nat) (hf : first < srcs.length) (hm : m < srcs.length) :
    (clearedRecords srcs first).getD m [] =
      if (srcs.getD m ([], false, false)).2.1 = true ∧
         (srcs.getD m ([], false, false)).2.2 = true
      then (srcs.getD m ([], false, false)).1 else [] := by
  have hf1 : first < (srcs.map (fun s => s.1)).length := by
    rw [List.length_map]; exact hf
  rw [clearedRecords, clearLoop_getD _ _ _ _ _ hf1]
  have e1 : (srcs.map (fun s => s.2.1)).getD m false =
      (srcs.getD m ([], false, false)).2.1 :=
    getD_map_of_lt (fun s => s.2.1) srcs m ([], false, false) hm
  have e2 : (srcs.map (fun s => s.2.2)).getD m false =
      (srcs.getD m ([], false, false)).2.2 :=
    getD_map_of_lt (fun s => s.2.2) srcs m ([], false, false) hm
  have e3 : (srcs.map (fun s => s.1)).getD m [] =
      (srcs.getD m ([], false, false)).1 :=
    getD_map_of_lt (fun s => s.1) srcs m ([], false, false) hm
  rw [e1, e2, e3]
  have hm1 : m < (srcs.map (fun s => s.1)).length := by
    rw [List.length_map]; exact hm
  by_cases hflag : (srcs.getD m ([], false, false)).2.1 = true ∧
      (srcs.getD m ([], false, false)).2.2 = true
  · rw [if_neg (fun hc => hc.2 hflag), if_pos hflag]
  · rw [if_pos ⟨hm1, hflag⟩, if_neg hflag]

/-- C2: in load_txt_records_from_dns, every source whose dnssec_available
    flag is false or whose dnssec_valid flag is false has its record set
    cleared to empty by the clearing loop (whose result, clearedRecords, is
    what the counting and quorum phases consume), whatever it returned. -/
theorem C2_untrusted_sources_cleared {α : Type}
    (srcs : List (List α × Bool × Bool)) (first m : Nat)
    (hf : first < srcs.length) (hm : m < srcs.length)
    (h : (srcs.getD m ([], false, false)).2.1 = false ∨
         (srcs.getD m ([], false, false)).2.2 = false) :
    (clearedRecords srcs first).getD m [] = [] := by
  rw [clearedRecords_getD _ _ _ hf hm, if_neg]
  rintro ⟨h1, h2⟩
  rcases h with h | h <;> simp_all

/-- C2 witness: a concrete untrusted source comes out cleared. -/
theorem C2_untrusted_sources_cleared_witness :
    (clearedRecords [([1], true, false), ([2], true, true)] 1).getD 0 [] =
      ([] : List Nat) :=
  C2_untrusted_sources_cleared [([1], true, false), ([2], true, true)] 1 0
    (by decide) (by decide) (by decide)

/-- Scanning a list for an element equal to x is deciding membership. -/
theorem any_decide_eq_mem {α : Type} [DecidableEq α] (x : α) (b : List α) :
    (b.any fun y => decide (x = y)) = decide (x ∈ b) := by
  induction b with
  | nil => simp
  | cons y ys ih =>
    by_cases hx : x = y
    · simp [hx]
    · simp [List.any_cons, hx, ih, List.mem_cons]

/-- The source's record-set comparison computes exactly the spec's notion of
    matching record sets. -/
theorem dns_records_match_eq_spec {α : Type} [DecidableEq α] (a b : List α) :
    dns_records_match a b = records_match_spec a b := by
  simp only [dns_records_match, records_match_spec, any_decide_eq_mem]

/-- The pair-search of the source coincides with the spec's first-pair
    search: skipping an empty j-side set is subsumed by the size check of
    the match, and index size - 1 can never open a pair. -/
theorem findGoodIndex_eq_specGoodIndex {α : Type} [DecidableEq α]
    (recs : List (List α)) : findGoodIndex recs = specGoodIndex recs := by
  rw [findGoodIndex, specGoodIndex]
  have hpred : (fun i =>
      !(recs.getD i []).isEmpty &&
      (findFirstFrom
        (fun j => dns_records_match (recs.getD i []) (recs.getD j []))
        (i + 1) (recs.length - (i + 1))).isSome) =
      (fun i =>
      !(recs.getD i []).isEmpty &&
      (findFirstFrom
        (fun j => !(recs.getD j []).isEmpty &&
          records_match_spec (recs.getD i []) (recs.getD j []))
        (i + 1) (recs.length - (i + 1))).isSome) := by
    funext i
    cases hi : (recs.getD i []).isEmpty with
    | true => rfl
    | false =>
      rw [Bool.not_false, Bool.true_and, Bool.true_and]
      rw [Bool.eq_iff_iff, findFirstFrom_isSome, findFirstFrom_isSome]
      constructor
      · rintro ⟨j, h1, h2, h3⟩
        refine ⟨j, h1, h2, ?_⟩
        rw [dns_records_match_eq_spec] at h3
        have hlen : (recs.getD i []).length = (recs.getD j []).length := by
          rw [records_match_spec, Bool.and_eq_true] at h3
          exact of_decide_eq_true h3.1
        have hine : recs.getD i [] ≠ [] := List.isEmpty_eq_false.mp hi
        have hjne : (recs.getD j []).isEmpty = false := by
          rw [List.isEmpty_eq_false]
          intro he
          rw [he, List.length_nil] at hlen
          exact hine (List.length_eq_zero.mp hlen)
        rw [Bool.and_eq_true, hjne]
        exact ⟨rfl, h3⟩
      · rintro ⟨j, h1, h2, h3⟩
        rw [Bool.and_eq_true] at h3
        refine ⟨j, h1, h2, ?_⟩
        rw [dns_records_match_eq_spec]
        exact h3.2
  rw [hpred]
  cases hn : recs.length with
  | zero => rfl
  | succ n =>
    simp only [hn, Nat.add_sub_cancel]
    refine (findFirstFrom_snoc ?_).symm
    simp [findFirstFrom]

/-- If no source survived with records, every cleared entry is empty. -/
theorem num_valid_records_eq_zero {α : Type} {recs : List (List α)}
    (h : num_valid_records recs = 0) : ∀ i, recs.getD i [] = [] := by
  rw [num_valid_records, List.countP_eq_zero] at h
  intro i
  by_cases hi : i < recs.length
  · have hmem : recs.getD i [] ∈ recs := by
      rw [List.getD_eq_getElem?_getD, List.getElem?_eq_getElem hi]
      exact List.getElem_mem hi
    have := h _ hmem
    simpa [List.length_eq_zero] using this
  · rw [List.getD_eq_getElem?_getD, List.getElem?_eq_none (by omega)]
    rfl

/-- With every record set empty, the spec-side pair search finds nothing. -/
theorem specGoodIndex_eq_none_of_num_valid_zero {α : Type} [DecidableEq α]
    {recs : List (List α)} (h : num_valid_records recs = 0) :
    specGoodIndex recs = none := by
  rw [specGoodIndex]
  apply findFirstFrom_eq_none.mpr
  intro j _ _
  have hj := num_valid_records_eq_zero h j
  rw [hj]
  rfl

/-- C1: with more than one configured hostname, load_txt_records_from_dns
    returns exactly the outcome of the spec's search over the cleared record
    sets for the first pair (i, j), i < j, both nonempty, matching as sets
    (same cardinality and containment of each record of one in the other):
    the record set of the first such i if a pair exists, rejection
    otherwise. -/
theorem C1_multi_source_quorum {α : Type} [DecidableEq α]
    (srcs : List (List α × Bool × Bool)) (first : Nat)
    (h : 1 < srcs.length) (hf : first < srcs.length) :
    load_txt_records_from_dns srcs first =
      (specGoodIndex (clearedRecords srcs first)).map
        (fun i => (clearedRecords srcs first).getD i []) := by
  have hne : srcs.isEmpty = false := by
    rw [List.isEmpty_eq_false]
    intro e
    rw [e] at h
    simp at h
  simp only [load_txt_records_from_dns, hne, Bool.false_eq_true, if_false]
  by_cases h0 : num_valid_records (clearedRecords srcs first) = 0
  · rw [if_pos h0, specGoodIndex_eq_none_of_num_valid_zero h0]
    rfl
  · rw [if_neg h0, if_neg (by omega : ¬srcs.length = 1),
      findGoodIndex_eq_specGoodIndex]
    cases specGoodIndex (clearedRecords srcs first) <;> rfl

/-- C1 witness: two agreeing sources, with a nonzero random start index. -/
theorem C1_multi_source_quorum_witness :
    load_txt_records_from_dns [([1, 2], true, true), ([2, 1], true, true)] 1 =
      (specGoodIndex
        (clearedRecords [([1, 2], true, true), ([2, 1], true, true)] 1)).map
        (fun i =>
          (clearedRecords
            [([1, 2], true, true), ([2, 1], true, true)] 1).getD i []) :=
  C1_multi_source_quorum [([1, 2], true, true), ([2, 1], true, true)] 1
    (by decide) (by decide)

/-- C4: with exactly one configured hostname whose flags are both true and
    whose record set is nonempty, load_txt_records_from_dns accepts that
    record set unchanged. -/
theorem C4_single_source_accepted {α : Type} [DecidableEq α] (r : List α)
    (hr : r ≠ []) (first : Nat) (hf : first < 1) :
    load_txt_records_from_dns [(r, true, true)] first = some r := by
  have h0 : first = 0 := by omega
  subst h0
  have hlen : r.length ≠ 0 := fun e => hr (List.length_eq_zero.mp e)
  have hclr : clearedRecords [(r, true, true)] 0 = [r] := rfl
  simp [load_txt_records_from_dns, hclr, num_valid_records, hlen, hr]

/-- C4 witness: a concrete single trusted source is accepted unchanged. -/
theorem C4_single_source_accepted_witness :
    load_txt_records_from_dns [([3], true, true)] 0 = some [3] :=
  C4_single_source_accepted [3] (by decide) 0 (by decide)

/-- C5: load_txt_records_from_dns rejects an empty hostname list, and
    rejects whenever no source has a nonempty record set left after
    clearing. -/
theorem C5_reject_without_evidence {α : Type} [DecidableEq α] :
    (∀ first : Nat,
      load_txt_records_from_dns ([] : List (List α × Bool × Bool)) first =
        none) ∧
    (∀ (srcs : List (List α × Bool × Bool)) (first : Nat),
      num_valid_records (clearedRecords srcs first) = 0 →
      load_txt_records_from_dns srcs first = none) := by
  constructor
  · intro first
    rfl
  · intro srcs first h
    by_cases hs : srcs.isEmpty = true <;>
      simp [load_txt_records_from_dns, hs, h]

/-- C5 witness: the empty list and a fully-untrusted single source are both
    rejected. -/
theorem C5_reject_without_evidence_witness :
    load_txt_records_from_dns ([] : List (List Nat × Bool × Bool)) 0 = none ∧
    load_txt_records_from_dns [(([1] : List Nat), false, false)] 0 = none :=
  ⟨(@C5_reject_without_evidence Nat _).1 0,
   (@C5_reject_without_evidence Nat _).2 [([1], false, false)] 0 (by decide)⟩

/-- C6: the outcome of load_txt_records_from_dns does not depend on the
    randomized starting index of the clearing loop. -/
theorem C6_random_start_irrelevant {α : Type} [DecidableEq α]
    (srcs : List (List α × Bool × Bool)) (i1 i2 : Nat)
    (h1 : i1 < srcs.length) (h2 : i2 < srcs.length) :
    load_txt_records_from_dns srcs i1 = load_txt_records_from_dns srcs i2 := by
  have hcl : clearedRecords srcs i1 = clearedRecords srcs i2 := by
    apply List.ext_getElem
    · rw [clearedRecords_length, clearedRecords_length]
    · intro m hm1 hm2
      have hm : m < srcs.length := by
        rw [clearedRecords_length] at hm1
        exact hm1
      have e1 : (clearedRecords srcs i1)[m] =
          (clearedRecords srcs i1).getD m [] := by
        rw [List.getD_eq_getElem?_getD, List.getElem?_eq_getElem hm1]
        rfl
      have e2 : (clearedRecords srcs i2)[m] =
          (clearedRecords srcs i2).getD m [] := by
        rw [List.getD_eq_getElem?_getD, List.getElem?_eq_getElem hm2]
        rfl
      rw [e1, e2, clearedRecords_getD _ _ _ h1 hm,
        clearedRecords_getD _ _ _ h2 hm]
  simp [load_txt_records_from_dns, hcl]

/-- C6 witness: two different starting indices give the same outcome on a
    concrete source array. -/
theorem C6_random_start_irrelevant_witness :
    load_txt_records_from_dns
        [(([1] : List Nat), true, true), ([1], false, true)] 0 =
      load_txt_records_from_dns [(([1] : List Nat), true, true),
        ([1], false, true)] 1 :=
  C6_random_start_irrelevant [([1], true, true), ([1], false, true)] 0 1
    (by decide) (by decide)

/-- C10: whenever load_txt_records_from_dns accepts, the accepted record set
    is nonempty, on the single-source path (guarded by the survivor count)
    and on the multi-source path (which skips empty sets when pairing). -/
theorem C10_accepted_records_nonempty {α : Type} [DecidableEq α]
    (srcs : List (List α × Bool × Bool)) (first : Nat) (g : List α)
    (h : load_txt_records_from_dns srcs first = some g) : g ≠ [] := by
  rw [load_txt_records_from_dns] at h
  by_cases hs : srcs.isEmpty = true
  · rw [if_pos hs] at h
    cases h
  · rw [if_neg hs] at h
    simp only at h
    by_cases h0 : num_valid_records (clearedRecords srcs first) = 0
    · rw [if_pos h0] at h
      cases h
    · rw [if_neg h0] at h
      by_cases h1 : srcs.length = 1
      · rw [if_pos h1] at h
        have hg : g = (clearedRecords srcs first).getD 0 [] :=
          (Option.some.inj h).symm
        have hlen : (clearedRecords srcs first).length = 1 := by
          rw [clearedRecords_length, h1]
        obtain ⟨x, hx⟩ := List.length_eq_one.mp hlen
        rw [hx] at hg h0
        have hxne : x ≠ [] := by
          intro e
          apply h0
          simp [num_valid_records, e]
        rw [hg]
        simpa using hxne
      · rw [if_neg h1] at h
        cases hgi : findGoodIndex (clearedRecords srcs first) with
        | none => rw [hgi] at h; cases h
        | some i =>
          rw [hgi] at h
          have hg : g = (clearedRecords srcs first).getD i [] :=
            (Option.some.inj h).symm
          rw [findGoodIndex] at hgi
          obtain ⟨_, _, hp, _⟩ := findFirstFrom_eq_some.mp hgi
          rw [Bool.and_eq_true] at hp
          have hne : ((clearedRecords srcs first).getD i []).isEmpty = false := by
            rcases hp with ⟨hpe, _⟩
            simpa using hpe
          rw [hg]
          exact List.isEmpty_eq_false.mp hne

/-- C10 witness: a concretely accepted record set is nonempty. -/
theorem C10_accepted_records_nonempty_witness : ([5] : List Nat) ≠ [] :=
  C10_accepted_records_nonempty [([5], true, true)] 0 [5] (by decide)

/-- C9: get_account_address_as_str_from_url returns the empty string and
    never invokes the confirmation callback when the candidate list
    extracted from the resolved TXT records (the first component of
    addresses_from_url) is empty; otherwise it invokes the callback exactly
    once, with the identifier, the candidates and the dnssec validity flag,
    and returns the callback's result verbatim. -/
theorem C9_confirm_callback_discipline (engine : UbResult (List Char))
    (url : List Char)
    (dns_confirm : List Char → List (List Char) → Bool → List Char) :
    ((addresses_from_url engine url).1 = [] →
      get_account_address_as_str_from_url engine url dns_confirm =
        ([], [])) ∧
    ((addresses_from_url engine url).1 ≠ [] →
      get_account_address_as_str_from_url engine url dns_confirm =
        (dns_confirm url (addresses_from_url engine url).1
            (addresses_from_url engine url).2,
         [(url, (addresses_from_url engine url).1,
            (addresses_from_url engine url).2)])) := by
  constructor
  · intro h
    rw [get_account_address_as_str_from_url]
    simp [h]
  · intro h
    rw [get_account_address_as_str_from_url]
    simp [h]

set_option maxRecDepth 8192 in
/-- C9 witness: an engine answering no records gives an empty result with no
    callback invocation, and an engine answering one well-formed record
    invokes the callback once and returns its value. -/
theorem C9_confirm_callback_discipline_witness :
    (get_account_address_as_str_from_url
        ⟨true, true, false, true, []⟩ "alice@example.com".toList
        (fun _ cands _ => cands.headD []) = ([], [])) ∧
    (get_account_address_as_str_from_url
        ⟨true, true, false, true,
          ['X' :: ("oa1:xmr recipient_address=".toList ++
            List.replicate 95 'A' ++ [';'])]⟩ "alice@example.com".toList
        (fun _ cands _ => cands.headD []) =
      ((fun (_ : List Char) (cands : List (List Char)) (_ : Bool) =>
          cands.headD [])
        "alice@example.com".toList
        (addresses_from_url
          ⟨true, true, false, true,
            ['X' :: ("oa1:xmr recipient_address=".toList ++
              List.replicate 95 'A' ++ [';'])]⟩
          "alice@example.com".toList).1
        (addresses_from_url
          ⟨true, true, false, true,
            ['X' :: ("oa1:xmr recipient_address=".toList ++
              List.replicate 95 'A' ++ [';'])]⟩
          "alice@example.com".toList).2,
       [("alice@example.com".toList,
         (addresses_from_url
           ⟨true, true, false, true,
             ['X' :: ("oa1:xmr recipient_address=".toList ++
               List.replicate 95 'A' ++ [';'])]⟩
           "alice@example.com".toList).1,
         (addresses_from_url
           ⟨true, true, false, true,
             ['X' :: ("oa1:xmr recipient_address=".toList ++
               List.replicate 95 'A' ++ [';'])]⟩
           "alice@example.com".toList).2)])) :=
  ⟨(C9_confirm_callback_discipline ⟨true, true, false, true, []⟩
      "alice@example.com".toList (fun _ cands _ => cands.headD [])).1 rfl,
   (C9_confirm_callback_discipline
      ⟨true, true, false, true,
        ['X' :: ("oa1:xmr recipient_address=".toList ++
          List.replicate 95 'A' ++ [';'])]⟩
      "alice@example.com".toList
      (fun _ cands _ => cands.headD [])).2 (by decide)⟩

end DnsUtils
